import Mathlib

/-!
Shallow embedding of the EBM training-session orchestration from
`interpret-core/interpret/glassbox/ebm/internal.py`.

Conventions used throughout:
* Python floats that only ever participate in ordered-field arithmetic
  (validation metrics, tolerances, scores) are modelled as rationals `ℚ`.
* `np.inf` sentinels are modelled by `Option ℚ` with `none` standing for `+∞`.
* numpy arrays are modelled by `Tensor`: a shape (list of axis sizes) plus a
  dense payload, abstracted as a function from index vectors to values.
* The opaque native engine is modelled by oracle parameters/fields: outcomes
  of native calls (success flags, gains, metrics, stored tensors) are inputs
  to the embedded functions, and the booster state tracks what the native
  side holds (staged update, best/current models) under the assumption that
  the engine stores and returns tensors faithfully.
* Fallible methods return `Booster × Except String _` so that the state
  mutations the Python code performs before raising are still visible.
-/

namespace Interpret

/-- Embeds `Native.get_count_scores_c`: `1 if n_classes <= 2 else n_classes`. -/
def get_count_scores_c (n_classes : Int) : Int :=
  if n_classes ≤ 2 then 1 else n_classes

/-- Swap of the first two axes of an index/shape list, the action of
`np.transpose(_, (1, 0))` on a 2-axis shape and of `np.transpose(_, (1, 0, 2))`
on a 3-axis shape. -/
def swap01 {α : Type} : List α → List α
  | a :: b :: rest => b :: a :: rest
  | l => l

/-- Dense numpy array model: a shape plus the payload as a function from
index vectors to values. -/
structure Tensor where
  shape : List Int
  data : List Int → ℚ

/-- Embeds the two-feature transpose convention: `np.transpose(T, (1, 0))`
for 2-axis tensors and `np.transpose(T, (1, 0, 2))` for 3-axis tensors both
swap the first two axes. -/
def transpose01 (T : Tensor) : Tensor :=
  ⟨swap01 T.shape, fun ix => T.data (swap01 ix)⟩

inductive ModelType : Type
  | classification
  | regression
deriving DecidableEq

/-- State of a `NativeEBMBooster` training session.  The fields up to
`feature_group_index` mirror the Python attributes; `staged`, `best_model`,
`current_model` model the tensors held by the native engine behind the opaque
handle (faithful-storage assumption), and `native_calls` counts mutating
native calls so that theorems can assert that an error path issued none. -/
structure Booster where
  model_type : ModelType
  n_classes : Int
  features_bin_count : List Int
  feature_groups : List (List ℕ)
  feature_group_index : Int
  staged : Option Tensor
  best_model : ℕ → Tensor
  current_model : ℕ → Tensor
  native_calls : ℕ

/-- Embeds `NativeEBMBooster.__init__` lines 953‑955: before any validation or
native call the session sets `self._booster_handle = None` and
`self._feature_group_index = -1`. -/
def NativeEBMBooster_init (model_type : ModelType) (n_classes : Int)
    (features_bin_count : List Int) (feature_groups : List (List ℕ))
    (best_model current_model : ℕ → Tensor) : Booster :=
  { model_type := model_type
    n_classes := n_classes
    features_bin_count := features_bin_count
    feature_groups := feature_groups
    feature_group_index := -1
    staged := none
    best_model := best_model
    current_model := current_model
    native_calls := 0 }

/-- Embeds `NativeEBMBooster._get_feature_group_shape`: collect the bin count
of every member feature, reverse the axis order, and append a trailing axis of
size `n_scores` when `n_scores > 1`. -/
def get_feature_group_shape (s : Booster) (feature_group_index : ℕ) : List Int :=
  let feature_indexes := s.feature_groups.getD feature_group_index []
  let dimensions := feature_indexes.map (fun fi => s.features_bin_count.getD fi 0)
  let dimensions := dimensions.reverse
  let n_scores := get_count_scores_c s.n_classes
  if 1 < n_scores then dimensions ++ [n_scores] else dimensions

/-- Caller-facing shape of the staged-update tensor for a feature group: the
native shape of `get_feature_group_shape`, with the first two axes swapped
when the group has exactly two member features (inverse image of the ingress
transpose in `set_model_update_expanded`). -/
def caller_facing_shape (s : Booster) (feature_group_index : ℕ) : List Int :=
  if (s.feature_groups.getD feature_group_index []).length = 2 then
    swap01 (get_feature_group_shape s feature_group_index)
  else
    get_feature_group_shape s feature_group_index

/-- Embeds `NativeEBMBooster.generate_model_update`.  The native outcome is an
oracle: `nativeOk` is whether `GenerateModelUpdate` returned zero, `gain` the
gain it reported, `upd` the update it staged.  The Python method first resets
`self._feature_group_index = -1`, then calls the engine, and only on success
sets the index to the requested group. -/
def generate_model_update (s : Booster) (feature_group_index : ℕ)
    (nativeOk : Bool) (gain : ℚ) (upd : Tensor) : Booster × Except String ℚ :=
  let s0 := { s with feature_group_index := -1 }
  if nativeOk then
    ({ s0 with staged := some upd
               feature_group_index := (feature_group_index : Int)
               native_calls := s0.native_calls + 1 }, Except.ok gain)
  else
    ({ s0 with native_calls := s0.native_calls + 1 },
      Except.error "GenerateModelUpdate")

/-- Embeds `NativeEBMBooster.apply_model_update`.  The metric the native call
reports is an oracle argument; the staged index is cleared first. -/
def apply_model_update (s : Booster) (metricOut : ℚ) : Booster × Except String ℚ :=
  ({ s with feature_group_index := -1
            staged := none
            native_calls := s.native_calls + 1 }, Except.ok metricOut)

/-- Embeds `NativeEBMBooster.get_model_update_expanded`: fail when no update
is staged, return `none` for degenerate classification (`n_classes ≤ 1`),
otherwise read the expanded update from the native engine (modelled by the
`staged` field under the faithful-storage assumption) and apply the
two-feature transpose. -/
def get_model_update_expanded (s : Booster) : Except String (Option Tensor) :=
  if s.feature_group_index < 0 then
    Except.error "invalid internal self._feature_group_index"
  else if s.model_type = ModelType.classification ∧ s.n_classes ≤ 1 then
    Except.ok none
  else
    match s.staged with
    | none => Except.error "GetModelUpdateExpanded"
    | some u =>
      if (s.feature_groups.getD s.feature_group_index.toNat []).length = 2 then
        Except.ok (some (transpose01 u))
      else
        Except.ok (some u)

/-- Embeds `NativeEBMBooster.set_model_update_expanded`: clear the staged
index, reject any concrete tensor for degenerate classification, transpose
two-feature tensors into native axis order, check the shape, hand the tensor
to the engine and stage the index.  A `none` tensor outside the degenerate
case made the Python code raise inside numpy before any native call. -/
def set_model_update_expanded (s : Booster) (feature_group_index : ℕ)
    (model_update : Option Tensor) : Booster × Except String Unit :=
  let s0 := { s with feature_group_index := -1 }
  if s0.model_type = ModelType.classification ∧ s0.n_classes ≤ 1 then
    match model_update with
    | none => ({ s0 with feature_group_index := (feature_group_index : Int) }, Except.ok ())
    | some _ =>
      (s0, Except.error "a tensor with 1 class or less would be empty since the predictions would always be the same")
  else
    match model_update with
    | none => (s0, Except.error "TypeError from numpy on a missing tensor")
    | some T =>
      let T :=
        if (s0.feature_groups.getD feature_group_index []).length = 2 then
          transpose01 T
        else T
      let shape := get_feature_group_shape s0 feature_group_index
      if shape ≠ T.shape then
        (s0, Except.error "incorrect tensor shape in call to set_model_update_expanded")
      else
        ({ s0 with staged := some T
                   feature_group_index := (feature_group_index : Int)
                   native_calls := s0.native_calls + 1 }, Except.ok ())

/-- Embeds `NativeEBMBooster._get_best_model_feature_group`: `None` for
degenerate classification, otherwise the tensor the native engine holds,
with the two-feature transpose applied on egress. -/
def get_best_model_feature_group (s : Booster) (feature_group_index : ℕ) :
    Option Tensor :=
  if s.model_type = ModelType.classification ∧ s.n_classes ≤ 1 then
    none
  else
    let t := s.best_model feature_group_index
    if (s.feature_groups.getD feature_group_index []).length = 2 then
      some (transpose01 t)
    else
      some t

/-- Embeds `NativeEBMBooster._get_current_model_feature_group` (same structure
as the best-model read, against the current native model). -/
def get_current_model_feature_group (s : Booster) (feature_group_index : ℕ) :
    Option Tensor :=
  if s.model_type = ModelType.classification ∧ s.n_classes ≤ 1 then
    none
  else
    let t := s.current_model feature_group_index
    if (s.feature_groups.getD feature_group_index []).length = 2 then
      some (transpose01 t)
    else
      some t

/-- Embeds `NativeEBMBooster.get_best_model`: one entry per feature group, in
declaration order. -/
def get_best_model (s : Booster) : List (Option Tensor) :=
  (List.range s.feature_groups.length).map (fun i => get_best_model_feature_group s i)

/-- Embeds `NativeEBMBooster.get_current_model`. -/
def get_current_model (s : Booster) : List (Option Tensor) :=
  (List.range s.feature_groups.length).map (fun i => get_current_model_feature_group s i)

/-- Embeds the score-tensor validation/synthesis block of
`NativeEBMBooster.__init__` (used identically for `scores_train` and
`scores_val`): when no scores are supplied, `np.zeros(len(y) * n_scores)`
builds a one-dimensional all-zero array of length `n_samples * n_scores`;
when scores are supplied, the sample count, dimensionality and trailing
dimension are validated before any native call. -/
def booster_check_scores (scores : Option Tensor) (n_y : ℕ) (n_scores : Int) :
    Except String Tensor :=
  match scores with
  | none => Except.ok ⟨[(n_y : Int) * n_scores], fun _ => 0⟩
  | some sc =>
    if sc.shape.headD 0 ≠ (n_y : Int) then
      Except.error "scores does not have the same number of samples as y"
    else if n_scores = 1 then
      if sc.shape.length ≠ 1 then
        Except.error "scores should have exactly 1 dimensions for regression or binary classification"
      else Except.ok sc
    else
      if sc.shape.length ≠ 2 then
        Except.error "scores should have exactly 2 dimensions for multiclass"
      else if sc.shape.getD 1 0 ≠ n_scores then
        Except.error "scores does not have the same number of logit scores as n_scores"
      else Except.ok sc

/-- Minimum of an optional running value (`none` = `+∞`) and a new metric,
the effect of `min_metric = min(curr_metric, min_metric)` starting from
`np.inf`. -/
def optMin (m : Option ℚ) (c : ℚ) : Option ℚ :=
  match m with
  | none => some c
  | some v => some (min c v)

/-- Decides `min_metric + early_stopping_tolerance < bp_metric` where either
metric may be the `np.inf` sentinel (`none`). -/
def optLtAdd (m : Option ℚ) (tol : ℚ) (bp : Option ℚ) : Bool :=
  match m, bp with
  | none, _ => false
  | some _, none => true
  | some v, some b => decide (v + tol < b)

/-- Per-round mutable state of the `cyclic_gradient_boost` loop. -/
structure LoopState where
  min_metric : Option ℚ
  bp_metric : Option ℚ
  no_change_run_length : ℕ
deriving DecidableEq

/-- Embeds the early-stopping bookkeeping executed once per round after the
feature-group sweep (internal.py lines 1635‑1640): recapture the baseline when
the run length is zero, then reset or increment the run length depending on
whether the running minimum improved beyond the tolerance. -/
def roundUpdate (tol : ℚ) (st : LoopState) (mm : Option ℚ) : LoopState :=
  let bp := if st.no_change_run_length = 0 then mm else st.bp_metric
  let run := if optLtAdd mm tol bp then 0 else st.no_change_run_length + 1
  ⟨mm, bp, run⟩

/-- Embeds the inner feature-group sweep of round `t`: fold
`min_metric = min(curr_metric, min_metric)` over the validation metric that
`apply_model_update` reports for each feature group.  The metrics the native
engine produces are an oracle `metric : round → feature group → ℚ`. -/
def sweepMin (metric : ℕ → ℕ → ℚ) (nFG t : ℕ) (m : Option ℚ) : Option ℚ :=
  (List.range nFG).foldl (fun acc j => optMin acc (metric t j)) m

/-- Embeds the round loop of `NativeHelper.cyclic_gradient_boost` with `t` the
current value of `episode_index` and the remaining fuel counting the rounds
`range(max_rounds)` still offers.  Returns `(min_metric, episode_index)`;
on normal exhaustion Python leaves `episode_index` at its last value
`max_rounds - 1`, or at its initialisation `0` when the loop body never ran,
which the truncated subtraction `t - 1` reproduces. -/
def boostGo (metric : ℕ → ℕ → ℚ) (nFG : ℕ) (R : Int) (tol : ℚ) :
    ℕ → ℕ → LoopState → Option ℚ × ℕ
  | t, 0, st => (st.min_metric, t - 1)
  | t, rem + 1, st =>
    let st1 := roundUpdate tol st (sweepMin metric nFG t st.min_metric)
    if 0 ≤ R ∧ R ≤ (st1.no_change_run_length : Int) then
      (st1.min_metric, t)
    else
      boostGo metric nFG R tol (t + 1) rem st1

/-- The `cyclic_gradient_boost` loop run from its initial state
(`min_metric = np.inf`, `bp_metric = np.inf`, `no_change_run_length = 0`,
`episode_index = 0`). -/
def boostRun (metric : ℕ → ℕ → ℚ) (nFG : ℕ) (R : Int) (tol : ℚ)
    (max_rounds : ℕ) : Option ℚ × ℕ :=
  boostGo metric nFG R tol 0 max_rounds ⟨none, none, 0⟩

/-- Counts the loop iterations `boostGo` executes from the same start state;
mirrors `boostGo` exactly, counting one per entered round. -/
def boostCount (metric : ℕ → ℕ → ℚ) (nFG : ℕ) (R : Int) (tol : ℚ) :
    ℕ → ℕ → LoopState → ℕ
  | _, 0, _ => 0
  | t, rem + 1, st =>
    let st1 := roundUpdate tol st (sweepMin metric nFG t st.min_metric)
    if 0 ≤ R ∧ R ≤ (st1.no_change_run_length : Int) then
      1
    else
      1 + boostCount metric nFG R tol (t + 1) rem st1

/-- Modelled from the spec: `rounds_completed`, the number of boosting rounds
the loop actually executes, a quantity the spec returns but the source only
tracks through the loop variable `episode_index`. -/
def rounds_completed (metric : ℕ → ℕ → ℚ) (nFG : ℕ) (R : Int) (tol : ℚ)
    (max_rounds : ℕ) : ℕ :=
  boostCount metric nFG R tol 0 max_rounds ⟨none, none, 0⟩

/-- Embeds `NativeHelper.cyclic_gradient_boost` as a whole: run the round
loop, then select `get_current_model` when the validation partition is empty
and `get_best_model` otherwise, returning
`(model_update, min_metric, episode_index)`. -/
def cyclic_gradient_boost (booster : Booster) (metric : ℕ → ℕ → ℚ) (R : Int)
    (tol : ℚ) (max_rounds : ℕ) (n_val_samples : ℕ) :
    List (Option Tensor) × Option ℚ × ℕ :=
  let r := boostRun metric booster.feature_groups.length R tol max_rounds
  let model_update :=
    if n_val_samples = 0 then get_current_model booster else get_best_model booster
  (model_update, r.1, r.2)

/-- Running minimum of the validation metric after round `t` (the value of
`min_metric` once round `t` has been swept). -/
def runningMin (metric : ℕ → ℕ → ℚ) (nFG : ℕ) : ℕ → Option ℚ
  | 0 => sweepMin metric nFG 0 none
  | t + 1 => sweepMin metric nFG (t + 1) (runningMin metric nFG t)

/-- Bookkeeping state after round `t`, computed directly from the per-round
running-minimum sequence (the loop-free recurrence the implementation
refines). -/
def postState (metric : ℕ → ℕ → ℚ) (nFG : ℕ) (tol : ℚ) : ℕ → LoopState
  | 0 => roundUpdate tol ⟨none, none, 0⟩ (runningMin metric nFG 0)
  | t + 1 => roundUpdate tol (postState metric nFG tol t) (runningMin metric nFG (t + 1))

/-- Bookkeeping state on entry to round `t`. -/
def preState (metric : ℕ → ℕ → ℚ) (nFG : ℕ) (tol : ℚ) : ℕ → LoopState
  | 0 => ⟨none, none, 0⟩
  | t + 1 => postState metric nFG tol t

/-- Break condition of the loop at the end of round `t`, phrased on the
loop-free recurrence. -/
def breakNow (metric : ℕ → ℕ → ℚ) (nFG : ℕ) (R : Int) (tol : ℚ) (t : ℕ) : Prop :=
  0 ≤ R ∧ R ≤ ((postState metric nFG tol t).no_change_run_length : Int)

instance (metric : ℕ → ℕ → ℚ) (nFG : ℕ) (R : Int) (tol : ℚ) (t : ℕ) :
    Decidable (breakNow metric nFG R tol t) :=
  inferInstanceAs (Decidable (_ ∧ _))

/-- First round index in `[t, t + rem)` at which the break condition fires,
if any. -/
def firstBreak (metric : ℕ → ℕ → ℚ) (nFG : ℕ) (R : Int) (tol : ℚ) :
    ℕ → ℕ → Option ℕ
  | _, 0 => none
  | t, rem + 1 =>
    if breakNow metric nFG R tol t then some t
    else firstBreak metric nFG R tol (t + 1) rem

/-- All validation metrics `apply_model_update` reports across `rounds` full
rounds, in execution order. -/
def stepMetrics (metric : ℕ → ℕ → ℚ) (nFG rounds : ℕ) : List ℚ :=
  (List.range rounds).flatMap (fun t => (List.range nFG).map (metric t))

/-- Minimum of a list of metrics starting from the `np.inf` sentinel. -/
def foldMin (l : List ℚ) : Option ℚ :=
  l.foldl optMin none

/-- Embeds `NativeHelper.get_interactions`: score every candidate feature
group through the interaction session (the engine-reported scores are the
oracle `score`), pair each tuple with its score, sort by score descending
(`sorted(..., key=lambda x: x[1], reverse=True)` is a stable sort), and
return the parallel lists of tuples and scores. -/
def get_interactions (score : List ℕ → ℚ) (iter_feature_groups : List (List ℕ)) :
    List (List ℕ) × List ℚ :=
  let interaction_scores := iter_feature_groups.map (fun fg => (fg, score fg))
  let ranked_scores := interaction_scores.mergeSort (fun a b => decide (b.2 ≤ a.2))
  let final_ranked_scores := ranked_scores
  (final_ranked_scores.map Prod.fst, final_ranked_scores.map Prod.snd)

/-! Helper lemmas. -/

theorem swap01_swap01 {α : Type} (l : List α) : swap01 (swap01 l) = l := by
  match l with
  | [] => rfl
  | [a] => rfl
  | a :: b :: rest => rfl

theorem transpose01_transpose01 (T : Tensor) : transpose01 (transpose01 T) = T := by
  cases T with
  | mk shape data =>
    simp only [transpose01, swap01_swap01]

theorem postState_min_metric (metric : ℕ → ℕ → ℚ) (nFG : ℕ) (tol : ℚ) (t : ℕ) :
    (postState metric nFG tol t).min_metric = runningMin metric nFG t := by
  cases t <;> rfl

theorem sweep_preState (metric : ℕ → ℕ → ℚ) (nFG : ℕ) (tol : ℚ) (t : ℕ) :
    sweepMin metric nFG t (preState metric nFG tol t).min_metric
      = runningMin metric nFG t := by
  cases t with
  | zero => rfl
  | succ k =>
    show sweepMin metric nFG (k + 1) (postState metric nFG tol k).min_metric = _
    rw [postState_min_metric]
    rfl

theorem roundUpdate_preState (metric : ℕ → ℕ → ℚ) (nFG : ℕ) (tol : ℚ) (t : ℕ) :
    roundUpdate tol (preState metric nFG tol t)
        (sweepMin metric nFG t (preState metric nFG tol t).min_metric)
      = postState metric nFG tol t := by
  cases t with
  | zero => rfl
  | succ k =>
    rw [sweep_preState]
    rfl

theorem preState_succ (metric : ℕ → ℕ → ℚ) (nFG : ℕ) (tol : ℚ) (t : ℕ) :
    preState metric nFG tol (t + 1) = postState metric nFG tol t := rfl

/-- Refinement of the round loop by the loop-free recurrence: started on entry
to round `t` with `rem` rounds of fuel left, the loop returns the running
minimum and index of the round at which the break condition first fires (or of
the last fueled round), and executes exactly the rounds up to that index. -/
theorem boost_master (metric : ℕ → ℕ → ℚ) (nFG : ℕ) (R : Int) (tol : ℚ) :
    ∀ rem t, 1 ≤ t ∨ 0 < rem →
      boostGo metric nFG R tol t rem (preState metric nFG tol t)
          = (runningMin metric nFG ((firstBreak metric nFG R tol t rem).getD (t + rem - 1)),
             (firstBreak metric nFG R tol t rem).getD (t + rem - 1))
      ∧ boostCount metric nFG R tol t rem (preState metric nFG tol t) + t
          = (firstBreak metric nFG R tol t rem).getD (t + rem - 1) + 1 := by
  intro rem
  induction rem with
  | zero =>
    intro t ht
    have ht1 : 1 ≤ t := by omega
    obtain ⟨k, rfl⟩ : ∃ k, t = k + 1 := ⟨t - 1, by omega⟩
    refine ⟨?_, ?_⟩
    · show ((preState metric nFG tol (k + 1)).min_metric, k + 1 - 1) = _
      rw [preState_succ, postState_min_metric]
      simp [firstBreak]
    · simp [boostCount, firstBreak]
  | succ rem ih =>
    intro t _
    have hstep := roundUpdate_preState metric nFG tol t
    simp only [boostGo, boostCount, hstep]
    by_cases hbk : breakNow metric nFG R tol t
    · have hbk' : 0 ≤ R ∧ R ≤ ((postState metric nFG tol t).no_change_run_length : Int) := hbk
      rw [if_pos hbk', if_pos hbk', firstBreak, if_pos hbk]
      rw [postState_min_metric]
      refine ⟨by simp, by simp only [Option.getD_some]; omega⟩
    · have hbk' : ¬(0 ≤ R ∧ R ≤ ((postState metric nFG tol t).no_change_run_length : Int)) := hbk
      have hd : t + 1 + rem - 1 = t + (rem + 1) - 1 := by omega
      have ihh := ih (t + 1) (Or.inl (by omega))
      rw [preState_succ, hd] at ihh
      rw [if_neg hbk', if_neg hbk', firstBreak, if_neg hbk]
      refine ⟨ihh.1, ?_⟩
      have h2 := ihh.2
      omega

theorem firstBreak_of_neg (metric : ℕ → ℕ → ℚ) (nFG : ℕ) {R : Int} (tol : ℚ)
    (hR : R < 0) : ∀ rem t, firstBreak metric nFG R tol t rem = none := by
  intro rem
  induction rem with
  | zero => intro t; rfl
  | succ rem ih =>
    intro t
    rw [firstBreak, if_neg, ih (t + 1)]
    intro h
    simp only [breakNow] at h
    omega

theorem stepMetrics_succ (metric : ℕ → ℕ → ℚ) (nFG t : ℕ) :
    stepMetrics metric nFG (t + 1)
      = stepMetrics metric nFG t ++ (List.range nFG).map (metric t) := by
  simp [stepMetrics, List.range_succ]

theorem foldMin_stepMetrics (metric : ℕ → ℕ → ℚ) (nFG : ℕ) :
    ∀ t, foldMin (stepMetrics metric nFG (t + 1)) = runningMin metric nFG t := by
  intro t
  induction t with
  | zero =>
    show foldMin (stepMetrics metric nFG 1) = sweepMin metric nFG 0 none
    rw [stepMetrics_succ]
    have h0 : stepMetrics metric nFG 0 = [] := rfl
    rw [h0, List.nil_append]
    simp [foldMin, sweepMin, List.foldl_map]
  | succ k ih =>
    rw [stepMetrics_succ]
    show (stepMetrics metric nFG (k + 1) ++ (List.range nFG).map (metric (k + 1))).foldl optMin none
        = sweepMin metric nFG (k + 1) (runningMin metric nFG k)
    rw [List.foldl_append]
    have ih' : (stepMetrics metric nFG (k + 1)).foldl optMin none = runningMin metric nFG k := ih
    rw [ih']
    simp [sweepMin, List.foldl_map]

/-- C1 (amended): with `early_stopping_rounds = R < 0` the loop always
completes all `max_rounds` rounds; with `R ≥ 0` the loop terminates at the
first round at which the no-change run length of the baseline state machine
(recapture the baseline at every round entered with run length zero, reset the
run length only when the running minimum improves beyond the tolerance
relative to that baseline, increment it otherwise) reaches `R`, or at round
`max_rounds - 1` when that never happens — not at `i + R` rounds after the
running minimum stops improving. -/
theorem early_stopping_characterization (metric : ℕ → ℕ → ℚ) (nFG : ℕ)
    (R : Int) (tol : ℚ) (max_rounds : ℕ) (hmr : 0 < max_rounds) :
    (boostRun metric nFG R tol max_rounds).2
      = (firstBreak metric nFG R tol 0 max_rounds).getD (max_rounds - 1)
    ∧ (R < 0 → rounds_completed metric nFG R tol max_rounds = max_rounds) := by
  obtain ⟨h1, h2⟩ := boost_master metric nFG R tol max_rounds 0 (Or.inr hmr)
  have hpre : preState metric nFG tol 0 = ⟨none, none, 0⟩ := rfl
  rw [hpre] at h1 h2
  rw [show 0 + max_rounds - 1 = max_rounds - 1 from by omega] at h1 h2
  constructor
  · simp only [boostRun]
    rw [h1]
  · intro hR
    rw [firstBreak_of_neg metric nFG tol hR] at h2
    simp only [rounds_completed]
    simp only [Option.getD_none] at h2
    omega

/-- C1 (counterexample): with one feature group, tolerance `0`,
`early_stopping_rounds = 1` and `max_rounds = 4`, the metric sequence
`10, 5, 5, 5` has a running minimum that improves beyond the tolerance at
round 1 and never afterwards (`i = 1`), yet the loop stops at round 0 after a
single round, not at round `min (i + R) max_rounds = 2`: at round 0 the
baseline is captured from the same round and the run length immediately
reaches 1. -/
theorem early_stopping_not_i_plus_R :
    runningMin (fun t _ => if t = 0 then (10 : ℚ) else 5) 1 0 = some 10
    ∧ runningMin (fun t _ => if t = 0 then (10 : ℚ) else 5) 1 1 = some 5
    ∧ runningMin (fun t _ => if t = 0 then (10 : ℚ) else 5) 1 2 = some 5
    ∧ runningMin (fun t _ => if t = 0 then (10 : ℚ) else 5) 1 3 = some 5
    ∧ optLtAdd (some 5) 0 (some 10) = true
    ∧ optLtAdd (some 5) 0 (some 5) = false
    ∧ (boostRun (fun t _ => if t = 0 then (10 : ℚ) else 5) 1 1 0 4).2 = 0
    ∧ rounds_completed (fun t _ => if t = 0 then (10 : ℚ) else 5) 1 1 0 4 = 1
    ∧ (boostRun (fun t _ => if t = 0 then (10 : ℚ) else 5) 1 1 0 4).2 ≠ min (1 + 1) 4 := by
  norm_num [boostRun, boostGo, boostCount, rounds_completed, roundUpdate,
    sweepMin, runningMin, optMin, optLtAdd, List.range_succ]

/-- C1 (witness): the characterization applied to a concrete run with
early stopping disabled. -/
theorem early_stopping_characterization_witness :
    (boostRun (fun _ _ => (0 : ℚ)) 1 (-1) 0 3).2
      = (firstBreak (fun _ _ => (0 : ℚ)) 1 (-1) 0 0 3).getD 2
    ∧ rounds_completed (fun _ _ => (0 : ℚ)) 1 (-1) 0 3 = 3 := by
  obtain ⟨h1, h2⟩ :=
    early_stopping_characterization (fun _ _ => (0 : ℚ)) 1 (-1) 0 3 (by norm_num)
  exact ⟨h1, h2 (by norm_num)⟩

/-- C2 (amended): the third component of the tuple `cyclic_gradient_boost`
returns is the zero-based index of the last executed round — equal to
`rounds_completed - 1` for every run with `max_rounds > 0`, and to `0` (with
zero rounds completed) when `max_rounds = 0` — not the number of rounds
completed. -/
theorem episode_index_returned (b : Booster) (metric : ℕ → ℕ → ℚ) (R : Int)
    (tol : ℚ) (max_rounds n_val_samples : ℕ) :
    (max_rounds = 0 →
      (cyclic_gradient_boost b metric R tol max_rounds n_val_samples).2.2 = 0
      ∧ rounds_completed metric b.feature_groups.length R tol max_rounds = 0)
    ∧ (0 < max_rounds →
      (cyclic_gradient_boost b metric R tol max_rounds n_val_samples).2.2 + 1
        = rounds_completed metric b.feature_groups.length R tol max_rounds) := by
  constructor
  · rintro rfl
    exact ⟨rfl, rfl⟩
  · intro hmr
    obtain ⟨h1, h2⟩ :=
      boost_master metric b.feature_groups.length R tol max_rounds 0 (Or.inr hmr)
    have hpre : preState metric b.feature_groups.length tol 0 = ⟨none, none, 0⟩ := rfl
    rw [hpre] at h1 h2
    simp only [cyclic_gradient_boost, boostRun, rounds_completed]
    rw [h1]
    omega

/-- C2 (counterexample): a run with one feature group, early stopping
disabled and `max_rounds = 1` completes one round but returns `0` as the
third component of the tuple (the loop variable value, not the round count). -/
theorem episode_index_not_rounds_cex :
    (cyclic_gradient_boost
        ⟨ModelType.regression, 0, [2], [[0]], -1, none,
          fun _ => ⟨[2], fun _ => 0⟩, fun _ => ⟨[2], fun _ => 0⟩, 0⟩
        (fun _ _ => (0 : ℚ)) (-1) 0 1 1).2.2 = 0
    ∧ rounds_completed (fun _ _ => (0 : ℚ)) 1 (-1) 0 1 = 1
    ∧ ¬((cyclic_gradient_boost
        ⟨ModelType.regression, 0, [2], [[0]], -1, none,
          fun _ => ⟨[2], fun _ => 0⟩, fun _ => ⟨[2], fun _ => 0⟩, 0⟩
        (fun _ _ => (0 : ℚ)) (-1) 0 1 1).2.2
      = rounds_completed (fun _ _ => (0 : ℚ)) 1 (-1) 0 1) := by
  norm_num [cyclic_gradient_boost, boostRun, boostGo, boostCount,
    rounds_completed, roundUpdate, sweepMin, optMin, optLtAdd, List.range_succ]

/-- C2 (witness): the amended statement applied to a concrete
two-round run. -/
theorem episode_index_returned_witness :
    (cyclic_gradient_boost
        ⟨ModelType.regression, 0, [2], [[0]], -1, none,
          fun _ => ⟨[2], fun _ => 0⟩, fun _ => ⟨[2], fun _ => 0⟩, 0⟩
        (fun _ _ => (0 : ℚ)) (-1) 0 2 1).2.2 + 1
      = rounds_completed (fun _ _ => (0 : ℚ)) 1 (-1) 0 2 :=
  (episode_index_returned
    ⟨ModelType.regression, 0, [2], [[0]], -1, none,
      fun _ => ⟨[2], fun _ => 0⟩, fun _ => ⟨[2], fun _ => 0⟩, 0⟩
    (fun _ _ => (0 : ℚ)) (-1) 0 2 1).2 (by norm_num)

/-- C3: the `min_metric` the loop returns is the minimum — starting from the
`+∞` sentinel — over the validation metrics of every individual feature-group
`apply_model_update` step executed across the whole run, at boosting-step
granularity. -/
theorem min_metric_global (metric : ℕ → ℕ → ℚ) (nFG : ℕ) (R : Int) (tol : ℚ)
    (max_rounds : ℕ) :
    (boostRun metric nFG R tol max_rounds).1
      = foldMin (stepMetrics metric nFG (rounds_completed metric nFG R tol max_rounds)) := by
  cases max_rounds with
  | zero => rfl
  | succ k =>
    obtain ⟨h1, h2⟩ := boost_master metric nFG R tol (k + 1) 0 (Or.inr (by omega))
    have hpre : preState metric nFG tol 0 = ⟨none, none, 0⟩ := rfl
    rw [hpre] at h1 h2
    have hrc : rounds_completed metric nFG R tol (k + 1)
        = (firstBreak metric nFG R tol 0 (k + 1)).getD (0 + (k + 1) - 1) + 1 := by
      simp only [rounds_completed]
      omega
    rw [boostRun, h1, hrc, foldMin_stepMetrics]

/-- C4: for a feature group with member bin counts `b_1..b_k` the session
computes a tensor shape with exactly the `k` reversed bin-count axes when
`n_scores = 1` (`n_classes ≤ 2`), and one extra trailing axis of size
`n_classes` when `n_classes > 2`, where `n_scores = get_count_scores_c
n_classes` is `n_classes` for `n_classes > 2` and `1` otherwise. -/
theorem feature_group_tensor_shape (s : Booster) (i : ℕ) :
    get_count_scores_c s.n_classes = (if 2 < s.n_classes then s.n_classes else 1)
    ∧ get_feature_group_shape s i
        = ((s.feature_groups.getD i []).map (fun fi => s.features_bin_count.getD fi 0)).reverse
          ++ (if 2 < s.n_classes then [s.n_classes] else [])
    ∧ (get_feature_group_shape s i).length
        = (s.feature_groups.getD i []).length + (if 2 < s.n_classes then 1 else 0) := by
  by_cases h : s.n_classes ≤ 2
  · have h2 : ¬(2 < s.n_classes) := by omega
    have hc : get_count_scores_c s.n_classes = 1 := by
      simp [get_count_scores_c, h]
    refine ⟨by rw [hc, if_neg h2], ?_, ?_⟩
    · simp only [get_feature_group_shape, hc, if_neg h2]
      norm_num
    · simp only [get_feature_group_shape, hc]
      norm_num [if_neg h2]
  · have h2 : 2 < s.n_classes := by omega
    have hc : get_count_scores_c s.n_classes = s.n_classes := by
      simp [get_count_scores_c, h]
    have h1 : 1 < s.n_classes := by omega
    refine ⟨by rw [hc, if_pos h2], ?_, ?_⟩
    · simp only [get_feature_group_shape, hc, if_pos h1, if_pos h2]
    · simp only [get_feature_group_shape, hc, if_pos h1, if_pos h2]
      simp

/-- C7 (amended): when no score tensor is supplied, the session synthesizes a
one-dimensional all-zero array of length `n_samples * n_scores` before the
native create call; for `n_scores = 1` this coincides with the `[n_samples]`
shape, but for multiclass it is the flattened buffer, not a 2-D
`[n_samples, n_scores]` tensor. -/
theorem scores_synthesized_flat (n_y : ℕ) (n_scores : Int) :
    booster_check_scores none n_y n_scores
      = Except.ok ⟨[(n_y : Int) * n_scores], fun _ => 0⟩
    ∧ booster_check_scores none n_y 1 = Except.ok ⟨[(n_y : Int)], fun _ => 0⟩ := by
  refine ⟨rfl, ?_⟩
  simp [booster_check_scores]

/-- C7 (counterexample): for a 3-class problem with 2 samples the synthesized
tensor has shape `[6]`, not the `[n_samples, n_scores] = [2, 3]` shape the
claim states. -/
theorem scores_synthesized_not_2d :
    (booster_check_scores none 2 (get_count_scores_c 3)).map Tensor.shape
      = Except.ok [6]
    ∧ ([(6 : Int)] ≠ [2, 3]) := by
  constructor
  · rfl
  · decide

/-- C9: the staged-update index invariant of `generate_model_update`: a fresh
session starts with `feature_group_index = -1`, a generate whose native call
fails leaves it at `-1` (the method clears it before calling the engine), and
only a successful generate sets it to the requested group index. -/
theorem generate_update_staging_invariant (mt : ModelType) (nc : Int)
    (bins : List Int) (groups : List (List ℕ)) (best cur : ℕ → Tensor)
    (s : Booster) (fgIdx : ℕ) (gain : ℚ) (upd : Tensor) :
    (NativeEBMBooster_init mt nc bins groups best cur).feature_group_index = -1
    ∧ (generate_model_update s fgIdx false gain upd).1.feature_group_index = -1
    ∧ (generate_model_update s fgIdx true gain upd).1.feature_group_index = (fgIdx : Int) := by
  refine ⟨rfl, ?_, ?_⟩ <;> simp [generate_model_update]

/-- C10: for a degenerate classification session (`n_classes ≤ 1`) both model
snapshots are lists with one absent entry per feature group in declaration
order, and therefore the model component `cyclic_gradient_boost` returns for
such a session is that list of absent entries whichever selection branch is
taken. -/
theorem degenerate_model_lists (s : Booster)
    (hdeg : s.model_type = ModelType.classification ∧ s.n_classes ≤ 1)
    (metric : ℕ → ℕ → ℚ) (R : Int) (tol : ℚ) (max_rounds n_val_samples : ℕ) :
    get_best_model s = List.replicate s.feature_groups.length none
    ∧ get_current_model s = List.replicate s.feature_groups.length none
    ∧ (cyclic_gradient_boost s metric R tol max_rounds n_val_samples).1
        = List.replicate s.feature_groups.length none := by
  have hb : get_best_model s = List.replicate s.feature_groups.length none := by
    simp only [get_best_model, get_best_model_feature_group, if_pos hdeg]
    simp
  have hc : get_current_model s = List.replicate s.feature_groups.length none := by
    simp only [get_current_model, get_current_model_feature_group, if_pos hdeg]
    simp
  refine ⟨hb, hc, ?_⟩
  simp only [cyclic_gradient_boost]
  by_cases hnv : n_val_samples = 0
  · rw [if_pos hnv]
    exact hc
  · rw [if_neg hnv]
    exact hb

/-- C10 (witness): the degenerate snapshot lists for a concrete single-class
session with two feature groups. -/
theorem degenerate_model_lists_witness :
    get_best_model
        ⟨ModelType.classification, 1, [2, 3], [[0], [1]], -1, none,
          fun _ => ⟨[2], fun _ => 0⟩, fun _ => ⟨[2], fun _ => 0⟩, 0⟩
      = List.replicate 2 none :=
  (degenerate_model_lists
    ⟨ModelType.classification, 1, [2, 3], [[0], [1]], -1, none,
      fun _ => ⟨[2], fun _ => 0⟩, fun _ => ⟨[2], fun _ => 0⟩, 0⟩
    (by exact ⟨rfl, by norm_num⟩) (fun _ _ => 0) 0 0 0 0).1

theorem get_feature_group_shape_update_index (s : Booster) (x : Int) (g : ℕ) :
    get_feature_group_shape { s with feature_group_index := x } g
      = get_feature_group_shape s g := rfl

/-- C5: for a non-degenerate session, `set_model_update_expanded` on a tensor
of the caller-facing shape for feature group `g` succeeds, and a following
`get_model_update_expanded` returns that tensor unchanged: the two-feature
transpose is applied identically on both legs and cancels, under the
assumption that the native engine stores and returns the expanded update
faithfully. -/
theorem set_get_roundtrip (s : Booster) (g : ℕ) (T : Tensor)
    (hnd : ¬(s.model_type = ModelType.classification ∧ s.n_classes ≤ 1))
    (hsh : T.shape = caller_facing_shape s g) :
    (set_model_update_expanded s g (some T)).2 = Except.ok ()
    ∧ get_model_update_expanded (set_model_update_expanded s g (some T)).1
        = Except.ok (some T) := by
  by_cases hlen : (s.feature_groups.getD g []).length = 2
  · have hT' : (transpose01 T).shape = get_feature_group_shape s g := by
      show swap01 T.shape = _
      rw [hsh, caller_facing_shape, if_pos hlen, swap01_swap01]
    have hset : set_model_update_expanded s g (some T)
        = ({ s with feature_group_index := (g : Int), staged := some (transpose01 T), native_calls := s.native_calls + 1 }, Except.ok ()) := by
      simp only [set_model_update_expanded]
      rw [if_neg hnd, if_pos hlen, get_feature_group_shape_update_index,
        if_neg (not_ne_iff.mpr hT'.symm)]
    rw [hset]
    refine ⟨rfl, ?_⟩
    simp only [get_model_update_expanded]
    rw [if_neg (by exact Int.not_lt.mpr (Int.natCast_nonneg g)), if_neg hnd]
    rw [show ((g : Int)).toNat = g from Int.toNat_natCast g]
    rw [if_pos hlen, transpose01_transpose01]
  · have hT : T.shape = get_feature_group_shape s g := by
      rw [hsh, caller_facing_shape, if_neg hlen]
    have hset : set_model_update_expanded s g (some T)
        = ({ s with feature_group_index := (g : Int), staged := some T, native_calls := s.native_calls + 1 }, Except.ok ()) := by
      simp only [set_model_update_expanded]
      rw [if_neg hnd, if_neg hlen, get_feature_group_shape_update_index,
        if_neg (not_ne_iff.mpr hT.symm)]
    rw [hset]
    refine ⟨rfl, ?_⟩
    simp only [get_model_update_expanded]
    rw [if_neg (by exact Int.not_lt.mpr (Int.natCast_nonneg g)), if_neg hnd]
    rw [show ((g : Int)).toNat = g from Int.toNat_natCast g]
    rw [if_neg hlen]

/-- C5 (witness): the round trip evaluated on a concrete regression session
with one two-feature group (bin counts 3 and 2) and a concrete tensor of the
caller-facing shape `[3, 2]`. -/
theorem set_get_roundtrip_witness :
    (set_model_update_expanded
        ⟨ModelType.regression, 0, [3, 2], [[0, 1]], -1, none,
          fun _ => ⟨[2], fun _ => 0⟩, fun _ => ⟨[2], fun _ => 0⟩, 0⟩
        0 (some ⟨[3, 2], fun _ => 1⟩)).2 = Except.ok ()
    ∧ get_model_update_expanded
        (set_model_update_expanded
          ⟨ModelType.regression, 0, [3, 2], [[0, 1]], -1, none,
            fun _ => ⟨[2], fun _ => 0⟩, fun _ => ⟨[2], fun _ => 0⟩, 0⟩
          0 (some ⟨[3, 2], fun _ => 1⟩)).1
        = Except.ok (some ⟨[3, 2], fun _ => 1⟩) :=
  set_get_roundtrip
    ⟨ModelType.regression, 0, [3, 2], [[0, 1]], -1, none,
      fun _ => ⟨[2], fun _ => 0⟩, fun _ => ⟨[2], fun _ => 0⟩, 0⟩
    0 ⟨[3, 2], fun _ => 1⟩ (by decide) (by decide)

/-- C8: for a degenerate classification session (`n_classes ≤ 1`) with an
update staged, `get_model_update_expanded` returns the absent value, and
`set_model_update_expanded` rejects every concrete tensor with an error while
issuing no native call, succeeding only on the absent value (again with no
native call). -/
theorem degenerate_update_contract (s : Booster) (g : ℕ) (T : Tensor)
    (hdeg : s.model_type = ModelType.classification ∧ s.n_classes ≤ 1)
    (hstaged : 0 ≤ s.feature_group_index) :
    get_model_update_expanded s = Except.ok none
    ∧ (set_model_update_expanded s g (some T)).2
        = Except.error "a tensor with 1 class or less would be empty since the predictions would always be the same"
    ∧ (set_model_update_expanded s g (some T)).1.native_calls = s.native_calls
    ∧ (set_model_update_expanded s g none).2 = Except.ok ()
    ∧ (set_model_update_expanded s g none).1.native_calls = s.native_calls := by
  refine ⟨?_, ?_, ?_, ?_, ?_⟩
  · simp only [get_model_update_expanded]
    rw [if_neg (by omega : ¬s.feature_group_index < 0), if_pos hdeg]
  · simp only [set_model_update_expanded]
    rw [if_pos hdeg]
  · simp only [set_model_update_expanded]
    rw [if_pos hdeg]
  · simp only [set_model_update_expanded]
    rw [if_pos hdeg]
  · simp only [set_model_update_expanded]
    rw [if_pos hdeg]

/-- C8 (witness): the degenerate contract applied to a concrete single-class
classification session with a staged update. -/
theorem degenerate_update_contract_witness :
    get_model_update_expanded
        ⟨ModelType.classification, 1, [2], [[0]], 0, none,
          fun _ => ⟨[2], fun _ => 0⟩, fun _ => ⟨[2], fun _ => 0⟩, 3⟩
      = Except.ok none :=
  (degenerate_update_contract
    ⟨ModelType.classification, 1, [2], [[0]], 0, none,
      fun _ => ⟨[2], fun _ => 0⟩, fun _ => ⟨[2], fun _ => 0⟩, 3⟩
    0 ⟨[2], fun _ => 0⟩ (by decide) (by decide)).1

/-- C6: the ranked score list is sorted in descending order, the returned
tuple and score lists are parallel to the candidate list (same length, each
tuple paired with its own score), and — by stability of the sort with the
score-only key — any two candidates whose scores compare `≤` in input order
(ties in particular) keep their relative input order in the output. -/
theorem interactions_ranked (score : List ℕ → ℚ) (l : List (List ℕ)) :
    ((get_interactions score l).2).Pairwise (fun a b => b ≤ a)
    ∧ (get_interactions score l).1.length = l.length
    ∧ (get_interactions score l).2.length = l.length
    ∧ (∀ p ∈ (get_interactions score l).1.zip (get_interactions score l).2,
        p.2 = score p.1)
    ∧ (∀ a b : List ℕ, score b ≤ score a → [a, b].Sublist l
        → [a, b].Sublist (get_interactions score l).1) := by
  have trans : ∀ (x y z : List ℕ × ℚ),
      (fun a b : List ℕ × ℚ => decide (b.2 ≤ a.2)) x y →
      (fun a b : List ℕ × ℚ => decide (b.2 ≤ a.2)) y z →
      (fun a b : List ℕ × ℚ => decide (b.2 ≤ a.2)) x z := by
    intro x y z hxy hyz
    simp only [decide_eq_true_eq] at *
    exact hyz.trans hxy
  have total : ∀ (x y : List ℕ × ℚ),
      ((fun a b : List ℕ × ℚ => decide (b.2 ≤ a.2)) x y
        || (fun a b : List ℕ × ℚ => decide (b.2 ≤ a.2)) y x) = true := by
    intro x y
    simp only [Bool.or_eq_true, decide_eq_true_eq]
    exact (le_total y.2 x.2)
  have hsorted := List.sorted_mergeSort trans total
    (l.map (fun fg => (fg, score fg)))
  have hperm := List.mergeSort_perm (l.map (fun fg => (fg, score fg)))
    (fun a b => decide (b.2 ≤ a.2))
  refine ⟨?_, ?_, ?_, ?_, ?_⟩
  · simp only [get_interactions]
    rw [List.pairwise_map]
    exact hsorted.imp (fun h => of_decide_eq_true h)
  · simp only [get_interactions]
    rw [List.length_map, hperm.length_eq, List.length_map]
  · simp only [get_interactions]
    rw [List.length_map, hperm.length_eq, List.length_map]
  · simp only [get_interactions]
    intro p hp
    rw [List.zip_map'] at hp
    simp only [List.mem_map] at hp
    obtain ⟨q, hq, rfl⟩ := hp
    have hq' : q ∈ l.map (fun fg => (fg, score fg)) := hperm.mem_iff.mp hq
    simp only [List.mem_map] at hq'
    obtain ⟨fg, _, rfl⟩ := hq'
    rfl
  · intro a b hab hsub
    simp only [get_interactions]
    have h2 : [(a, score a), (b, score b)].Sublist
        (l.map (fun fg => (fg, score fg))) := by
      have := hsub.map (fun fg => (fg, score fg))
      simpa using this
    have h3 := List.pair_sublist_mergeSort trans total
      (by simpa using hab) h2
    have h4 := h3.map Prod.fst
    simpa using h4

/-- C6 (witness): stability on a concrete candidate list with a tie: the two
candidates scoring `1` keep their input order in the ranked output. -/
theorem interactions_ranked_witness :
    ([[1], [1]] : List (List ℕ)).Sublist
      (get_interactions (fun fg => (fg.headD 0 : ℚ)) [[1], [2], [1]]).1 :=
  (interactions_ranked (fun fg => (fg.headD 0 : ℚ)) [[1], [2], [1]]).2.2.2.2
    [1] [1] (by norm_num) (by decide)

end Interpret
